import Mathlib

/-!
# Verification of `cam.py` (Raspberry Pi camera HTTP service)

A shallow embedding of the single-file Flask application `src/cam.py`.
Python strings are modelled as `List Char`; Python exceptions are modelled
with `Except String`; the camera device (the `picamera2` handle) is modelled
as a sequence of primitive actions driven by an oracle that decides, call by
call, whether the underlying library call succeeds or raises.

All definitions are translated from the source.  The sole exceptions, marked
in their doc comments, are the two definitions written from the
specification's words (used to compare the specified and the implemented
next-capture-number computation) and the model of the external library
routine `werkzeug.safe_join` that `flask.send_from_directory` delegates to.
-/

deriving instance DecidableEq for Except

/-! ## Python character and string primitives -/

/-- Decimal-digit value of a character in Unicode category Nd, the category
accepted by Python `int()`.  The model covers the ASCII digits and, as a
representative non-ASCII Nd block, the Arabic-Indic digits U+0660 to U+0669;
other Nd blocks behave like the latter. -/
def ndDigitVal (c : Char) : Option Nat :=
  if '0' ≤ c ∧ c ≤ '9' then some (c.toNat - 48)
  else if Char.ofNat 0x660 ≤ c ∧ c ≤ Char.ofNat 0x669 then some (c.toNat - 0x660)
  else none

/-- Character test behind Python `str.isdigit`: true on category-Nd digits and
additionally on characters with property `Numeric_Type=Digit` that are not in
Nd, represented here by the superscripts U+00B9, U+00B2, U+00B3.  Those extra
characters pass `isdigit` yet are rejected by `int()`. -/
def pyDigitChar (c : Char) : Bool :=
  (ndDigitVal c).isSome ∨ c = Char.ofNat 0xB9 ∨ c = Char.ofNat 0xB2 ∨ c = Char.ofNat 0xB3

/-- Python `str.isdigit`: nonempty and every character passes the digit test. -/
def pyIsDigit (s : List Char) : Bool :=
  ¬ s.isEmpty ∧ s.all pyDigitChar

/-- ASCII whitespace stripped by Python `int()` around a numeric literal. -/
def isSpaceChar (c : Char) : Bool :=
  c = ' ' ∨ c = '\t' ∨ c = '\n' ∨ c = '\r' ∨ c = '\x0b' ∨ c = '\x0c'

/-- Strip leading and trailing whitespace, as `int()` does to its argument. -/
def stripWs (s : List Char) : List Char :=
  ((s.dropWhile isSpaceChar).reverse.dropWhile isSpaceChar).reverse

/-- Base-10 accumulation step over Nd digit values. -/
def ndStep (a : Nat) (c : Char) : Nat := a * 10 + (ndDigitVal c).getD 0

/-- Decimal value of a digit string (used by the specification-side
definitions; agrees with `pyInt` on all-Nd strings). -/
def ndValue (s : List Char) : Nat := s.foldl ndStep 0

/-- Digit-run parser behind Python `int()`: consumes Nd digits, where an
underscore is allowed only directly after a digit and must be followed by a
digit — the Boolean records whether the previous character was a digit, so a
doubled, leading, or trailing underscore fails exactly as in CPython. -/
def parseDigitsAux : Nat → Bool → List Char → Option Nat
  | acc, prevDigit, [] => if prevDigit then some acc else none
  | acc, prevDigit, c :: rest =>
    match ndDigitVal c with
    | some d => parseDigitsAux (acc * 10 + d) true rest
    | none =>
      if c = '_' ∧ prevDigit = true then parseDigitsAux acc false rest
      else none

/-- Parse a nonempty digit run (first character must be an Nd digit). -/
def parseDigitsU : List Char → Option Nat
  | [] => none
  | c :: rest =>
    match ndDigitVal c with
    | some d => parseDigitsAux d true rest
    | none => none

/-- Error message of a failed `int()` call, as `str(e)` would render it. -/
def intErrorMsg (s : List Char) : String :=
  "invalid literal for int with base 10: " ++ String.mk s

/-- Python `int(s)` for base 10: strip whitespace, optional sign, then a
digit run; raises `ValueError` otherwise.  In particular it rejects
`isdigit`-passing characters outside category Nd, such as superscripts. -/
def pyInt (s : List Char) : Except String Int :=
  match stripWs s with
  | [] => Except.error (intErrorMsg s)
  | c :: rest =>
    if c = '+' then
      match parseDigitsU rest with
      | some n => Except.ok (Int.ofNat n)
      | none => Except.error (intErrorMsg s)
    else if c = '-' then
      match parseDigitsU rest with
      | some n => Except.ok (-(Int.ofNat n))
      | none => Except.error (intErrorMsg s)
    else
      match parseDigitsU (c :: rest) with
      | some n => Except.ok (Int.ofNat n)
      | none => Except.error (intErrorMsg s)

/-- Python `s.startswith(pat)`. -/
def pyStartsWith : List Char → List Char → Bool
  | [], _ => true
  | _ :: _, [] => false
  | p :: ps, c :: cs => if p = c then pyStartsWith ps cs else false

/-- Python `s.split(sep)` for a one-character separator: splits at every
occurrence and keeps empty pieces, so the result is never the empty list. -/
def splitOnChar (sep : Char) : List Char → List (List Char)
  | [] => [[]]
  | c :: cs =>
    if c = sep then [] :: splitOnChar sep cs
    else
      match splitOnChar sep cs with
      | [] => [[c]]
      | g :: gs => (c :: g) :: gs

/-- Python `sep.join` for a one-character separator. -/
def joinWithChar (sep : Char) : List (List Char) → List Char
  | [] => []
  | [x] => x
  | x :: y :: rest => x ++ sep :: joinWithChar sep (y :: rest)

/-- ASCII lowercase mapping of one character; Python `str.lower` agrees with
this on the ASCII range (the V3 marker searched for is pure ASCII). -/
def asciiLowerChar (c : Char) : Char :=
  if 'A' ≤ c ∧ c ≤ 'Z' then Char.ofNat (c.toNat + 32) else c

/-- Python `str.lower`, modelled characterwise on the ASCII range. -/
def pyLower (s : List Char) : List Char := s.map asciiLowerChar

/-- Python substring containment `pat in s`. -/
def hasSubstr : List Char → List Char → Bool
  | pat, [] => pat.isEmpty
  | pat, s@(_ :: rest) => pyStartsWith pat s || hasSubstr pat rest

/-! ## Sensor profile and capture configurations (src/cam.py lines 16-75) -/

/-- `is_v3 = "imx708" in str(camera_info).lower()` (line 18); `info` stands
for the device identification string `str(camera_info)`. -/
def is_v3 (info : List Char) : Bool :=
  hasSubstr "imx708".data (pyLower info)

/-- `libcamera.controls.AfModeEnum` values used by the source. -/
inductive AfMode where
  | auto
  | continuous
deriving DecidableEq

/-- `libcamera.controls.AfRangeEnum` values used by the source. -/
inductive AfRange where
  | normal
deriving DecidableEq

/-- `libcamera.controls.AfMeteringEnum` values used by the source. -/
inductive AfMetering where
  | windows
deriving DecidableEq

/-- The control dictionary passed to a configuration; a `none` field means
the key is absent from the dictionary. -/
structure CamControls where
  afMode : Option AfMode
  afRange : Option AfRange
  afMetering : Option AfMetering
  afWindows : Option (List (Nat × Nat × Nat × Nat))
  frameDurationLimits : Option (Nat × Nat)
deriving DecidableEq

/-- Empty control dictionary. -/
def noControls : CamControls := ⟨none, none, none, none, none⟩

/-- Which `picamera2` constructor built the configuration. -/
inductive ConfigKind where
  | video
  | still
deriving DecidableEq

/-- A `picamera2` capture configuration: constructor kind, optional explicit
main-stream size (`none` means the device-default full resolution), and the
control dictionary. -/
structure CamConfig where
  kind : ConfigKind
  mainSize : Option (Nat × Nat)
  controls : CamControls
deriving DecidableEq

/-- Controls of the V3 preview configuration (lines 33-42).  The window
values are the exact integer results of the source's float expressions:
`int(1920 * 0.1) = 192`, `int(1080 * 0.1) = 108`, and the centred offsets
`int((1920 - 192) / 2) = 864`, `int((1080 - 108) / 2) = 486`. -/
def v3PreviewControls : CamControls :=
  ⟨some AfMode.continuous, some AfRange.normal, some AfMetering.windows,
    some [(864, 486, 192, 108)], some (100000, 100000)⟩

/-- Controls of the V3 still configuration (line 46 and again line 63). -/
def v3StillControls : CamControls :=
  ⟨some AfMode.auto, none, none, none, none⟩

/-- The module-level selection of `(video_config, still_config)` from
lines 23-71, including the duplicated inner `if is_v3` at line 24 (whose
`else` branch, the 1640x1232 / 4056x3040 pair, is unreachable) and the
rebindings of `still_config` and `video_config` at lines 61-67. -/
def configSelection (i : Bool) : CamConfig × CamConfig :=
  if i then
    let pair :=
      if i then
        (⟨ConfigKind.video, some (1920, 1080), v3PreviewControls⟩,
          ⟨ConfigKind.still, some (4608, 2592), v3StillControls⟩)
      else
        ((⟨ConfigKind.video, some (1640, 1232), noControls⟩ : CamConfig),
          (⟨ConfigKind.still, some (4056, 3040), noControls⟩ : CamConfig))
    let preview_config := pair.1
    let _video_config0 := preview_config
    let still_config1 : CamConfig := ⟨ConfigKind.still, some (4608, 2592), v3StillControls⟩
    let video_config1 := preview_config
    (video_config1, still_config1)
  else
    (⟨ConfigKind.video, some (640, 480), noControls⟩,
      ⟨ConfigKind.still, none, noControls⟩)

/-- The streaming configuration selected at startup for a device whose
identification string is `info`. -/
def video_config (info : List Char) : CamConfig :=
  (configSelection (is_v3 info)).1

/-- The still configuration selected at startup for a device whose
identification string is `info`. -/
def still_config (info : List Char) : CamConfig :=
  (configSelection (is_v3 info)).2

/-! ## Capture directory scanning (src/cam.py lines 77-80 and 133-142) -/

/-- `f.split('_')[1].split('.')[0]`: the portion of a filename between the
first underscore and the following dot.  The index `[1]` is in range for
every name the source applies this to, since those names start with
`capture_` and therefore contain an underscore; out of range the model
yields the empty string. -/
def pyComponent (f : List Char) : List Char :=
  (splitOnChar '.' ((splitOnChar '_' f).getD 1 [])).getD 0 []

/-- The `numbers` list comprehension at line 79, in order: for each name
whose component passes `isdigit`, hand the component to `int()`; a
`ValueError` raised by `int()` (possible on digit-property characters
outside category Nd) propagates out of the comprehension. -/
def collectNumbers : List (List Char) → Except String (List Int)
  | [] => Except.ok []
  | f :: rest =>
    if pyIsDigit (pyComponent f) then
      match pyInt (pyComponent f) with
      | Except.error e => Except.error e
      | Except.ok n =>
        match collectNumbers rest with
        | Except.error e => Except.error e
        | Except.ok ns => Except.ok (n :: ns)
    else collectNumbers rest

/-- Python `max(ns, default=0)`: the default applies only to an empty list. -/
def pyMaxDefault0 : List Int → Int
  | [] => 0
  | x :: xs => xs.foldl max x

/-- `get_next_capture_number` (lines 77-80): keep the directory entries that
start with `capture_`, parse the numeric components that pass `isdigit`, and
return one more than their maximum (or than 0 when there are none). -/
def get_next_capture_number (files : List (List Char)) : Except String Int :=
  let existing_files := files.filter (fun f => pyStartsWith "capture_".data f)
  match collectNumbers existing_files with
  | Except.error e => Except.error e
  | Except.ok numbers => Except.ok (pyMaxDefault0 numbers + 1)

/-- A JSON response of the service: HTTP status code, the `success` field,
and the optional `filename` and `error` fields. -/
structure HttpResponse where
  statusCode : Nat
  success : Bool
  filename : Option (List Char)
  error : Option String
deriving DecidableEq

/-- Python `max(x :: xs, key)` after the key of the first element has been
computed: the running maximum is replaced only by a strictly greater key, so
ties keep the earliest element; a key that raises propagates. -/
def pyMaxByKeyAux (key : List Char → Except String Int) :
    List Char → Int → List (List Char) → Except String (List Char)
  | best, _, [] => Except.ok best
  | best, bestK, x :: xs =>
    match key x with
    | Except.error e => Except.error e
    | Except.ok kx =>
      if bestK < kx then pyMaxByKeyAux key x kx xs
      else pyMaxByKeyAux key best bestK xs

/-- Python `max(x :: xs, key)`. -/
def pyMaxByKey (key : List Char → Except String Int) (x : List Char)
    (xs : List (List Char)) : Except String (List Char) :=
  match key x with
  | Except.error e => Except.error e
  | Except.ok kx => pyMaxByKeyAux key x kx xs

/-- The `/latest_capture` handler (lines 133-142): filter the listing to
names starting with `capture_`; 404 when none remain; otherwise take the
name with the maximal `int(f.split('_')[1].split('.')[0])` — note that this
handler applies `int()` without an `isdigit` guard, so a malformed name makes
the key raise and the surrounding `except` turns that into a 500. -/
def latest_capture (dirFiles : List (List Char)) : HttpResponse :=
  let files := dirFiles.filter (fun f => pyStartsWith "capture_".data f)
  match files with
  | [] => ⟨404, false, none, some "No captures found"⟩
  | x :: xs =>
    match pyMaxByKey (fun f => pyInt (pyComponent f)) x xs with
    | Except.ok latest => ⟨200, true, some latest, none⟩
    | Except.error e => ⟨500, false, none, some e⟩

/-- Whether an `Except` value is a success. -/
def exceptOk {ε α : Type} : Except ε α → Bool
  | Except.ok _ => true
  | Except.error _ => false

/-! ## Specification-side next-number definitions

These two definitions follow the words of the specification and of the
amended claim, to be compared with `get_next_capture_number` above. -/

/-- Modelled from the spec: the contribution of one directory entry under the
specification's words for C5, which count exactly the names of the form
`capture_<decimal digits>.jpg`. -/
def jpgCaptureValue (f : List Char) : Option Int :=
  if pyStartsWith "capture_".data f then
    let rest := f.drop 8
    let ds := rest.take (rest.length - 4)
    let ext := rest.drop (rest.length - 4)
    if ext = ".jpg".data ∧ ds ≠ [] ∧ ds.all (fun c => (ndDigitVal c).isSome) then
      some (Int.ofNat (ndValue ds))
    else none
  else none

/-- Modelled from the spec: the next capture number as the specification
words it for C5 — the values of exactly the `capture_<n>.jpg` names, their
maximum (0 when there are none), plus one. -/
def nextCaptureNumberSpec (files : List (List Char)) : Int :=
  pyMaxDefault0 (files.filterMap jpgCaptureValue) + 1

/-- The contributions the code actually counts: every entry with prefix
`capture_` whose first-underscore-to-first-dot portion passes the Python
digit test, regardless of extension. -/
def amendedValues (files : List (List Char)) : List Int :=
  files.filterMap (fun f =>
    if pyStartsWith "capture_".data f = true ∧ pyIsDigit (pyComponent f) = true then
      some (Int.ofNat (ndValue (pyComponent f)))
    else none)

/-- The next capture number as the amended claim words it: one more than the
maximum contribution (0 when there are none), with the `.jpg` requirement
dropped. -/
def nextCaptureNumberAmended (files : List (List Char)) : Int :=
  pyMaxDefault0 (amendedValues files) + 1

/-! ## The camera device and the still-capture handler (src/cam.py lines 99-131)

The `picamera2` device is driven through five primitives.  Whether a given
library call succeeds or raises is outside this program: it is modelled by an
oracle `env : Nat → Option String` consulted once per call, in order —
`none` means the call returns, `some msg` means it raises `msg`. -/

/-- One primitive call on the camera device. -/
inductive DevAction where
  | stop
  | configure (cfg : CamConfig)
  | start
  | sleepMs (ms : Nat)
  | captureToFile (path : List Char)
deriving DecidableEq

/-- `os.path.join` (POSIX flavour) of two components, as used at line 104
and inside `werkzeug.safe_join`. -/
def pyOsPathJoin (a b : List Char) : List Char :=
  if pyStartsWith "/".data b then b
  else if a = [] ∨ a.getLast? = some '/' then a ++ b
  else a ++ '/' :: b

/-- The f-string `f'capture_\x7bn\x7d.jpg'` of line 103. -/
def captureFilename (n : Int) : List Char :=
  "capture_".data ++ (toString n).data ++ ".jpg".data

/-- Run a list of device primitives in order, consulting the oracle at
consecutive indices.  Returns the outcome, the actions actually attempted
(the raising call included), and the next oracle index. -/
def runActs (env : Nat → Option String) :
    Nat → List DevAction → Except String Unit × List DevAction × Nat
  | k, [] => (Except.ok (), [], k)
  | k, a :: rest =>
    match env k with
    | some e => (Except.error e, [a], k + 1)
    | none =>
      let r := runActs env (k + 1) rest
      (r.1, a :: r.2.1, r.2.2)

/-- The device calls of the `try` body of the `/capture` handler, in source
order (lines 107-120): stop, configure still, start, the V3 autofocus wait,
capture to the joined file path, stop, configure video, start. -/
def primaryActions (info : List Char) (n : Int) : List DevAction :=
  [DevAction.stop, DevAction.configure (still_config info), DevAction.start]
    ++ (if is_v3 info then [DevAction.sleepMs 500] else [])
    ++ [DevAction.captureToFile (pyOsPathJoin "captures".data (captureFilename n)),
        DevAction.stop, DevAction.configure (video_config info), DevAction.start]

/-- The `try` body (lines 101-122): compute the next number (its exception
propagates before any device call), then run the device calls.  Returns the
filename on success or the exception, with the attempted actions and the
next oracle index. -/
def primarySeq (info : List Char) (dirFiles : List (List Char))
    (env : Nat → Option String) :
    Except String (List Char) × List DevAction × Nat :=
  match get_next_capture_number dirFiles with
  | Except.error e => (Except.error e, [], 0)
  | Except.ok n =>
    let r := runActs env 0 (primaryActions info n)
    (r.1.map (fun _ => captureFilename n), r.2.1, r.2.2)

/-- The `except` body's recovery attempt (lines 126-128): stop, configure
video, start, cut short at the first raising call, whose exception the bare
`except: pass` swallows. -/
def recoverySeq (info : List Char) (env : Nat → Option String) (k : Nat) :
    List DevAction × Nat :=
  let r := runActs env k
    [DevAction.stop, DevAction.configure (video_config info), DevAction.start]
  (r.2.1, r.2.2)

/-- What one `/capture` request produced: the HTTP response and the full
ordered list of device calls attempted. -/
structure CaptureOutcome where
  response : HttpResponse
  trace : List DevAction
deriving DecidableEq

/-- The `/capture` handler (lines 99-131): on success answer 200 with the
filename; on any exception run the recovery attempt and answer 500 with
`success: false` and the exception text. -/
def captureHandler (info : List Char) (dirFiles : List (List Char))
    (env : Nat → Option String) : CaptureOutcome :=
  match primarySeq info dirFiles env with
  | (Except.ok filename, t, _) => ⟨⟨200, true, some filename, none⟩, t⟩
  | (Except.error e, t, k) =>
    ⟨⟨500, false, none, some e⟩, t ++ (recoverySeq info env k).1⟩

/-! ## The /captures/filename handler (src/cam.py lines 144-146)

The handler calls `flask.send_from_directory`, which delegates path
containment to the external library routine `werkzeug.safe_join`; that
routine is modelled here from the library source: normalise the requested
name with `posixpath.normpath`, then reject it when it is absolute, equals
`..`, or begins with `../` (on POSIX there is no alternative separator to
check). -/

/-- Number of leading slashes `posixpath.normpath` preserves: exactly two
are kept as two, any other positive count collapses to one. -/
def leadSlashes (p : List Char) : Nat :=
  if pyStartsWith "//".data p ∧ ¬ pyStartsWith "///".data p then 2
  else if pyStartsWith "/".data p then 1
  else 0

/-- The component walk of `posixpath.normpath`: skip empty and `.`
components; append any component other than `..`; append `..` only at the
start of a relative path or on top of another `..`; otherwise `..` pops the
previous component, or is dropped at the root of an absolute path.  The
accumulator is kept reversed (most recent component first), so the Python
`pop()` of the last component is dropping the head — which on an empty
accumulator correctly does nothing. -/
def normAux (roots : Bool) : List (List Char) → List (List Char) → List (List Char)
  | acc, [] => acc.reverse
  | acc, comp :: rest =>
    if comp = [] ∨ comp = ".".data then normAux roots acc rest
    else if comp ≠ "..".data ∨ (roots = false ∧ acc = []) ∨
        (acc ≠ [] ∧ acc.headD [] = "..".data) then
      normAux roots (comp :: acc) rest
    else normAux roots (acc.drop 1) rest

/-- Reassembly step of `posixpath.normpath`: the preserved leading slashes,
the kept components joined by `/`, and `.` for an empty result. -/
def normpathAssemble (slashes : Nat) (comps : List (List Char)) : List Char :=
  let out := List.replicate slashes '/' ++ joinWithChar '/' comps
  if out = [] then ".".data else out

/-- `posixpath.normpath`, modelled from the CPython source. -/
def posixNormpath (p : List Char) : List Char :=
  if p = [] then ".".data
  else normpathAssemble (leadSlashes p)
    (normAux (decide (leadSlashes p ≠ 0)) [] (splitOnChar '/' p))

/-- `werkzeug.safe_join` for one path component, modelled from the library
source: an empty directory means `.`; a nonempty filename is normalised;
the request is rejected when the normalised name is absolute, is `..`, or
begins with `../`; otherwise the two parts are joined. -/
def safe_join (directory fname : List Char) : Option (List Char) :=
  let dir := if directory = [] then ".".data else directory
  let f := if fname = [] then fname else posixNormpath fname
  if pyStartsWith "/".data f ∨ f = "..".data ∨ pyStartsWith "../".data f then none
  else some (pyOsPathJoin dir f)

/-- Outcome of `/captures/<filename>`: rejection, or the path of the file
that would be served (`send_from_directory` still answers 404 when no file
exists at that path; which paths are reachable is the safety question). -/
inductive ServeResult where
  | notFound
  | fileAt (path : List Char)
deriving DecidableEq

/-- The `/captures/<filename>` handler (lines 144-146). -/
def serve_capture (filename : List Char) : ServeResult :=
  match safe_join "captures".data filename with
  | none => ServeResult.notFound
  | some p => ServeResult.fileAt p

/-! ## The /camera_info handler (src/cam.py lines 16-20 and 148-154) -/

/-- The value bound to the module-level name `camera_info` at a given point
of execution: line 17 binds the device identification returned by
`global_camera_info()`, and the `def camera_info():` statement at line 149
rebinds the same module-level name to the view function itself (Flask's
`route` decorator registers the function and returns it unchanged). -/
inductive ModuleBinding where
  | deviceIdentification (s : List Char)
  | viewFunction
deriving DecidableEq

/-- `str()` of the value bound to `camera_info`.  For the device
identification it is that string; for the view function CPython renders
`<function camera_info at 0x...>` — the model omits the address, which every
such rendering carries after the modelled prefix. -/
def pyStrBinding : ModuleBinding → List Char
  | ModuleBinding.deviceIdentification s => s
  | ModuleBinding.viewFunction => "<function camera_info at".data

/-- By the time any request is served the whole module has executed, so the
name `camera_info` read inside the handler holds the view function, not the
line-17 device identification. -/
def cameraInfoBindingAtRequestTime : ModuleBinding := ModuleBinding.viewFunction

/-- The JSON body of `/camera_info`: the keys `is_v3`, `info` and `type`. -/
structure CameraInfoBody where
  v3Flag : Bool
  info : List Char
  camType : List Char
deriving DecidableEq

/-- The `/camera_info` handler (lines 148-154), with `deviceInfo` the
identification string the startup code read at line 17: `is_v3` is the
startup flag, `info` is `str(camera_info)` — which reads the rebound module
name, hence the view function — and `type` names the profile. -/
def camera_info_route (deviceInfo : List Char) : CameraInfoBody :=
  ⟨is_v3 deviceInfo,
    pyStrBinding cameraInfoBindingAtRequestTime,
    if is_v3 deviceInfo then "Pi Camera V3".data else "HQ or other camera".data⟩

/-! ## Theorems -/

/-- C1: sensor profile selection is a pure function of the identification
string.  Strings containing `imx708` (case-insensitively) select a 1920x1080
streaming configuration and a 4608x2592 still configuration; all other
strings select 640x480 streaming and a device-default still configuration
with no explicit size and no autofocus controls. -/
theorem spec_C1 (info : List Char) :
    (is_v3 info = true →
      (video_config info).mainSize = some (1920, 1080) ∧
      (still_config info).mainSize = some (4608, 2592)) ∧
    (is_v3 info = false →
      (video_config info).mainSize = some (640, 480) ∧
      (still_config info).mainSize = none ∧
      (still_config info).controls = noControls) := by
  constructor
  · intro h
    simp [video_config, still_config, configSelection, h]
  · intro h
    simp [video_config, still_config, configSelection, h]

/-- Witness for C1 at two concrete identification strings, one containing
the marker in mixed case and one not containing it. -/
theorem spec_C1_witness :
    ((video_config "Camera IMX708 wide".data).mainSize = some (1920, 1080) ∧
      (still_config "Camera IMX708 wide".data).mainSize = some (4608, 2592)) ∧
    ((video_config "HQ imx477".data).mainSize = some (640, 480) ∧
      (still_config "HQ imx477".data).mainSize = none ∧
      (still_config "HQ imx477".data).controls = noControls) :=
  ⟨(spec_C1 "Camera IMX708 wide".data).1 (by decide),
    (spec_C1 "HQ imx477".data).2 (by decide)⟩

/-! ### Lemmas about the directory scan -/

/-- A whitespace character is not an Nd digit. -/
theorem ndDigitVal_space {c : Char} (h : isSpaceChar c = true) : ndDigitVal c = none := by
  simp only [isSpaceChar, decide_eq_true_eq] at h
  rcases h with rfl | rfl | rfl | rfl | rfl | rfl <;> decide

/-- An Nd digit is not whitespace. -/
theorem nd_not_space {c : Char} (h : (ndDigitVal c).isSome = true) : isSpaceChar c = false := by
  by_cases hs : isSpaceChar c = true
  · rw [ndDigitVal_space hs] at h
    cases h
  · exact eq_false_of_ne_true hs

/-- `dropWhile` does nothing on a list without whitespace. -/
theorem dropWhile_no_space {s : List Char} (h : ∀ c ∈ s, isSpaceChar c = false) :
    s.dropWhile isSpaceChar = s := by
  cases s with
  | nil => rfl
  | cons c t =>
    rw [List.dropWhile_cons, h c (List.mem_cons_self c t)]
    simp

/-- `int()` strips no characters from an all-Nd string. -/
theorem stripWs_no_space {s : List Char} (h : ∀ c ∈ s, isSpaceChar c = false) :
    stripWs s = s := by
  unfold stripWs
  rw [dropWhile_no_space h]
  rw [dropWhile_no_space (fun c hc => h c (List.mem_reverse.mp hc))]
  exact List.reverse_reverse s

/-- The digit-run parser succeeds on an all-Nd tail and folds up its value. -/
theorem parseDigitsAux_nd : ∀ (rest : List Char) (acc : Nat),
    (∀ c ∈ rest, (ndDigitVal c).isSome = true) →
    parseDigitsAux acc true rest = some (rest.foldl ndStep acc) := by
  intro rest
  induction rest with
  | nil => intro acc _; rfl
  | cons c r ih =>
    intro acc h
    cases hd : ndDigitVal c with
    | none =>
      have := h c (List.mem_cons_self c r)
      rw [hd] at this
      cases this
    | some d =>
      have hr : ∀ x ∈ r, (ndDigitVal x).isSome = true :=
        fun x hx => h x (List.mem_cons_of_mem c hx)
      unfold parseDigitsAux
      rw [hd]
      simp [ih (acc * 10 + d) hr, ndStep, hd]

/-- `int()` on a nonempty all-Nd string returns its decimal value. -/
theorem pyInt_nd {s : List Char} (hne : s ≠ [])
    (h : ∀ c ∈ s, (ndDigitVal c).isSome = true) :
    pyInt s = Except.ok (Int.ofNat (ndValue s)) := by
  have hstrip : stripWs s = s := stripWs_no_space (fun c hc => nd_not_space (h c hc))
  cases s with
  | nil => exact absurd rfl hne
  | cons c rest =>
    have hc : (ndDigitVal c).isSome = true := h c (List.mem_cons_self c rest)
    have hplus : c ≠ '+' := by
      rintro rfl
      rw [show ndDigitVal '+' = none from by decide] at hc
      cases hc
    have hminus : c ≠ '-' := by
      rintro rfl
      rw [show ndDigitVal '-' = none from by decide] at hc
      cases hc
    cases hd : ndDigitVal c with
    | none =>
      rw [hd] at hc
      cases hc
    | some d =>
      unfold pyInt
      rw [hstrip]
      simp only [if_neg hplus, if_neg hminus]
      have hr : ∀ x ∈ rest, (ndDigitVal x).isSome = true :=
        fun x hx => h x (List.mem_cons_of_mem c hx)
      simp only [parseDigitsU, hd, parseDigitsAux_nd rest d hr]
      have : ndValue (c :: rest) = rest.foldl ndStep d := by
        simp [ndValue, ndStep, hd]
      rw [this]

/-- The comprehension of line 79 skips an entry whose component fails the
digit test, wherever it occurs. -/
theorem collectNumbers_skip {f : List Char} (h : pyIsDigit (pyComponent f) = false) :
    ∀ l1 l2, collectNumbers (l1 ++ f :: l2) = collectNumbers (l1 ++ l2) := by
  intro l1
  induction l1 with
  | nil =>
    intro l2
    simp [collectNumbers, h]
  | cons x l1 ih =>
    intro l2
    simp only [List.cons_append, collectNumbers, List.append_eq, ih l2]

/-- `get_next_capture_number` ignores an entry whose component fails the
digit test, wherever it occurs in the directory listing. -/
theorem get_next_skips (fs1 fs2 : List (List Char)) (f : List Char)
    (h : pyIsDigit (pyComponent f) = false) :
    get_next_capture_number (fs1 ++ f :: fs2) = get_next_capture_number (fs1 ++ fs2) := by
  simp only [get_next_capture_number]
  by_cases hp : pyStartsWith "capture_".data f = true
  · rw [List.filter_append, List.filter_append, List.filter_cons_of_pos hp,
      collectNumbers_skip h]
  · rw [List.filter_append, List.filter_append,
      List.filter_cons_of_neg (by simp [hp])]

/-- The code's comprehension over the filtered listing is total and computes
the amended contribution list, provided every `isdigit`-passing component
consists of Nd digits. -/
theorem collect_eq_amended : ∀ files : List (List Char),
    (∀ f ∈ files, pyIsDigit (pyComponent f) = true →
      ∀ c ∈ pyComponent f, (ndDigitVal c).isSome = true) →
    collectNumbers (files.filter (fun f => pyStartsWith "capture_".data f)) =
      Except.ok (amendedValues files) := by
  intro files
  induction files with
  | nil => intro _; rfl
  | cons f rest ih =>
    intro H
    have Hrest : ∀ g ∈ rest, pyIsDigit (pyComponent g) = true →
        ∀ c ∈ pyComponent g, (ndDigitVal c).isSome = true :=
      fun g hg => H g (List.mem_cons_of_mem f hg)
    have Hf := H f (List.mem_cons_self f rest)
    by_cases hp : pyStartsWith "capture_".data f = true
    · rw [List.filter_cons_of_pos hp]
      by_cases hd : pyIsDigit (pyComponent f) = true
      · have hne : pyComponent f ≠ [] := by
          intro he
          rw [he] at hd
          cases hd
        have hint := pyInt_nd hne (Hf hd)
        simp only [collectNumbers, hd, if_true, hint, ih Hrest,
          amendedValues, List.filterMap_cons]
        simp [hp, hd, amendedValues]
      · simp only [collectNumbers, hd, if_false, ih Hrest,
          amendedValues, List.filterMap_cons]
        simp [hd, amendedValues]
    · rw [List.filter_cons_of_neg (by simp [hp])]
      simp only [ih Hrest, amendedValues, List.filterMap_cons]
      simp [hp, amendedValues]

/-- Under the Nd-component hypothesis the code computes exactly the amended
next capture number. -/
theorem get_next_eq_amended (files : List (List Char))
    (H : ∀ f ∈ files, pyIsDigit (pyComponent f) = true →
      ∀ c ∈ pyComponent f, (ndDigitVal c).isSome = true) :
    get_next_capture_number files = Except.ok (nextCaptureNumberAmended files) := by
  simp only [get_next_capture_number, nextCaptureNumberAmended]
  rw [collect_eq_amended files H]

/-- A fold of `max` only grows its base. -/
theorem le_foldl_max : ∀ (xs : List Int) (b : Int), b ≤ xs.foldl max b := by
  intro xs
  induction xs with
  | nil => intro b; exact le_refl b
  | cons y ys ih =>
    intro b
    exact le_trans (le_max_left b y) (ih (max b y))

/-- Every member of the fold is bounded by the fold of `max`. -/
theorem mem_le_foldl_max : ∀ (xs : List Int) (b v : Int), v ∈ xs → v ≤ xs.foldl max b := by
  intro xs
  induction xs with
  | nil => intro b v hv; cases hv
  | cons y ys ih =>
    intro b v hv
    rcases List.mem_cons.mp hv with rfl | hv2
    · exact le_trans (le_max_right b v) (le_foldl_max ys (max b v))
    · exact ih (max b y) v hv2

/-- Every member is bounded by `max(ns, default=0)`. -/
theorem mem_le_pyMaxDefault0 {ns : List Int} {v : Int} (hv : v ∈ ns) :
    v ≤ pyMaxDefault0 ns := by
  cases ns with
  | nil => cases hv
  | cons x xs =>
    rcases List.mem_cons.mp hv with rfl | hv2
    · exact le_foldl_max xs v
    · exact mem_le_foldl_max xs x v hv2

/-- `max(ns, default=0)` of nonnegative numbers is nonnegative. -/
theorem pyMaxDefault0_nonneg {ns : List Int} (h : ∀ v ∈ ns, 0 ≤ v) :
    0 ≤ pyMaxDefault0 ns := by
  cases ns with
  | nil => exact le_refl 0
  | cons x xs =>
    exact le_trans (h x (List.mem_cons_self x xs)) (le_foldl_max xs x)

/-- Every amended contribution is nonnegative. -/
theorem amendedValues_nonneg {files : List (List Char)} {v : Int}
    (hv : v ∈ amendedValues files) : 0 ≤ v := by
  rcases List.mem_filterMap.mp hv with ⟨f, _, hf⟩
  by_cases hc : pyStartsWith "capture_".data f = true ∧ pyIsDigit (pyComponent f) = true
  · rw [if_pos hc] at hf
    cases hf
    exact Int.ofNat_nonneg _
  · rw [if_neg hc] at hf
    cases hf

/-- A successful `pyMaxByKeyAux` run implies every key in the tail computed
without raising. -/
theorem pyMaxByKeyAux_ok (key : List Char → Except String Int) :
    ∀ (xs : List (List Char)) (best : List Char) (bestK : Int) (r : List Char),
    pyMaxByKeyAux key best bestK xs = Except.ok r →
    ∀ y ∈ xs, ∃ v, key y = Except.ok v := by
  intro xs
  induction xs with
  | nil => intro best bestK r _ y hy; cases hy
  | cons x xs ih =>
    intro best bestK r h y hy
    unfold pyMaxByKeyAux at h
    cases hk : key x with
    | error e =>
      rw [hk] at h
      cases h
    | ok kx =>
      rw [hk] at h
      simp only at h
      rcases List.mem_cons.mp hy with rfl | hy2
      · exact ⟨kx, hk⟩
      · by_cases hlt : bestK < kx
        · rw [if_pos hlt] at h
          exact ih x kx r h y hy2
        · rw [if_neg hlt] at h
          exact ih best bestK r h y hy2

/-- A successful `pyMaxByKey` run implies every key computed without raising. -/
theorem pyMaxByKey_ok (key : List Char → Except String Int) (x : List Char)
    (xs : List (List Char)) (r : List Char)
    (h : pyMaxByKey key x xs = Except.ok r) :
    ∀ y ∈ x :: xs, ∃ v, key y = Except.ok v := by
  intro y hy
  unfold pyMaxByKey at h
  cases hk : key x with
  | error e =>
    rw [hk] at h
    cases h
  | ok kx =>
    rw [hk] at h
    rcases List.mem_cons.mp hy with rfl | hy2
    · exact ⟨kx, hk⟩
    · exact pyMaxByKeyAux_ok key xs x kx r h y hy2

/-- C4: `get_next_capture_number` returns 1 on an empty directory, 8 on a
directory holding `capture_3.jpg` and `capture_7.jpg`, and ignores, without
raising, any entry whose portion between the first underscore and the
following dot is not all digits. -/
theorem spec_C4 :
    get_next_capture_number [] = Except.ok 1 ∧
    get_next_capture_number ["capture_3.jpg".data, "capture_7.jpg".data] = Except.ok 8 ∧
    ∀ fs1 fs2 f, pyIsDigit (pyComponent f) = false →
      get_next_capture_number (fs1 ++ f :: fs2) = get_next_capture_number (fs1 ++ fs2) :=
  ⟨by decide, by decide, fun fs1 fs2 f h => get_next_skips fs1 fs2 f h⟩

/-- Witness for C4 at a concrete malformed entry `capture_x.jpg`. -/
theorem spec_C4_witness :
    pyIsDigit (pyComponent "capture_x.jpg".data) = false ∧
    get_next_capture_number ([] ++ "capture_x.jpg".data :: ["capture_3.jpg".data]) =
      get_next_capture_number ([] ++ ["capture_3.jpg".data]) :=
  ⟨by decide, spec_C4.2.2 [] ["capture_3.jpg".data] "capture_x.jpg".data (by decide)⟩

/-- C5 counterexample: the code does not restrict the scan to the
`capture_<n>.jpg` pattern.  On a directory holding only `capture_5.png` the
code returns 6 while the specified computation returns 1, because the code
ignores the extension. -/
theorem spec_C5_counterexample :
    get_next_capture_number ["capture_5.png".data] ≠
      Except.ok (nextCaptureNumberSpec ["capture_5.png".data]) := by decide

/-- C5 as amended: on directory contents whose `isdigit`-passing components
consist of decimal (Nd) digits, the next number is max+1 over the parsed
components of every entry starting with `capture_` whose
first-underscore-to-first-dot portion passes the digit test, regardless of
extension. -/
theorem spec_C5_amended : ∀ files : List (List Char),
    (∀ f ∈ files, pyIsDigit (pyComponent f) = true →
      ∀ c ∈ pyComponent f, (ndDigitVal c).isSome = true) →
    get_next_capture_number files = Except.ok (nextCaptureNumberAmended files) :=
  fun files H => get_next_eq_amended files H

/-- Witness for the amended C5 at a directory whose only entry is a `.png`. -/
theorem spec_C5_witness :
    get_next_capture_number ["capture_2.png".data] =
      Except.ok (nextCaptureNumberAmended ["capture_2.png".data]) :=
  spec_C5_amended ["capture_2.png".data] (by decide)

/-- C7: `/latest_capture` answers 404 with the fixed error body when no
entry starts with `capture_`, and picks the highest-numbered capture when
the directory holds `capture_1.jpg` and `capture_2.jpg`. -/
theorem spec_C7 :
    (∀ dirFiles : List (List Char),
      dirFiles.all (fun f => ! pyStartsWith "capture_".data f) = true →
      latest_capture dirFiles = ⟨404, false, none, some "No captures found"⟩) ∧
    latest_capture ["capture_1.jpg".data, "capture_2.jpg".data] =
      ⟨200, true, some "capture_2.jpg".data, none⟩ := by
  constructor
  · intro dirFiles h
    have hnil : dirFiles.filter (fun f => pyStartsWith "capture_".data f) = [] := by
      rw [List.filter_eq_nil_iff]
      intro a ha
      have := List.all_eq_true.mp h a ha
      simpa using this
    simp [latest_capture, hnil]
  · decide

/-- Witness for C7 at a directory with one non-capture entry. -/
theorem spec_C7_witness :
    latest_capture ["readme.txt".data] = ⟨404, false, none, some "No captures found"⟩ :=
  spec_C7.1 ["readme.txt".data] (by decide)

/-- C8 counterexample: a malformed name does cause a 500.  With the single
entry `capture_foo.jpg` the `/latest_capture` key function raises inside
`max`, and the handler answers 500. -/
theorem spec_C8_counterexample :
    (latest_capture ["capture_foo.jpg".data]).statusCode = 500 := by decide

/-- C8 as amended: next-capture-number generation filters malformed names
out without raising, but the `/latest_capture` listing does not filter — any
`capture_`-prefixed entry whose numeric portion fails integer parsing makes
the handler answer 500 (the exception is caught, not propagated). -/
theorem spec_C8_amended :
    (∀ fs1 fs2 f, pyIsDigit (pyComponent f) = false →
      get_next_capture_number (fs1 ++ f :: fs2) = get_next_capture_number (fs1 ++ fs2)) ∧
    (∀ (dirFiles : List (List Char)) (f : List Char), f ∈ dirFiles →
      pyStartsWith "capture_".data f = true →
      exceptOk (pyInt (pyComponent f)) = false →
      (latest_capture dirFiles).statusCode = 500 ∧
      (latest_capture dirFiles).success = false) := by
  constructor
  · exact fun fs1 fs2 f h => get_next_skips fs1 fs2 f h
  · intro dirFiles f hf hp herr
    have hmem : f ∈ dirFiles.filter (fun g => pyStartsWith "capture_".data g) :=
      List.mem_filter.mpr ⟨hf, hp⟩
    cases hfl : dirFiles.filter (fun g => pyStartsWith "capture_".data g) with
    | nil =>
      rw [hfl] at hmem
      cases hmem
    | cons x xs =>
      rw [hfl] at hmem
      cases hmk : pyMaxByKey (fun g => pyInt (pyComponent g)) x xs with
      | ok r =>
        rcases pyMaxByKey_ok _ x xs r hmk f hmem with ⟨v, hv⟩
        rw [hv] at herr
        cases herr
      | error e =>
        simp [latest_capture, hfl, hmk]

/-- Witness for the amended C8 at a directory holding a malformed and a
well-formed capture name. -/
theorem spec_C8_witness :
    (latest_capture ["capture_foo.jpg".data, "capture_1.jpg".data]).statusCode = 500 ∧
    (latest_capture ["capture_foo.jpg".data, "capture_1.jpg".data]).success = false :=
  spec_C8_amended.2 ["capture_foo.jpg".data, "capture_1.jpg".data]
    "capture_foo.jpg".data (by decide) (by decide) (by decide)

/-- C10 counterexample: the scan is not total.  The name `capture_².jpg`
passes the `isdigit` guard (the superscript has the digit property) and then
`int()` raises `ValueError`, so `get_next_capture_number` raises. -/
theorem spec_C10_counterexample :
    get_next_capture_number ["capture_².jpg".data] =
      Except.error (intErrorMsg "²".data) := by decide

/-- C10 as amended: on directory contents whose `isdigit`-passing components
consist of decimal (Nd) digits — in particular on any all-ASCII listing —
the scan returns without raising, its result is at least 1, and the result
strictly exceeds the parsed numeric component of every counted entry. -/
theorem spec_C10_amended : ∀ files : List (List Char),
    (∀ f ∈ files, pyIsDigit (pyComponent f) = true →
      ∀ c ∈ pyComponent f, (ndDigitVal c).isSome = true) →
    ∃ n : Int, get_next_capture_number files = Except.ok n ∧ 1 ≤ n ∧
      ∀ f ∈ files, pyStartsWith "capture_".data f = true →
        pyIsDigit (pyComponent f) = true →
        ∀ v : Int, pyInt (pyComponent f) = Except.ok v → v < n := by
  intro files H
  refine ⟨nextCaptureNumberAmended files, get_next_eq_amended files H, ?_, ?_⟩
  · have h0 : 0 ≤ pyMaxDefault0 (amendedValues files) :=
      pyMaxDefault0_nonneg (fun v hv => amendedValues_nonneg hv)
    unfold nextCaptureNumberAmended
    omega
  · intro f hf hp hd v hv
    have hne : pyComponent f ≠ [] := by
      intro he
      rw [he] at hd
      cases hd
    have hint := pyInt_nd hne (H f hf hd)
    rw [hint] at hv
    cases hv
    have hmem : Int.ofNat (ndValue (pyComponent f)) ∈ amendedValues files := by
      apply List.mem_filterMap.mpr
      exact ⟨f, hf, by rw [if_pos ⟨hp, hd⟩]⟩
    have hle := mem_le_pyMaxDefault0 hmem
    unfold nextCaptureNumberAmended
    omega

/-- Witness for the amended C10 at a directory holding `capture_3.jpg`. -/
theorem spec_C10_witness :
    ∃ n : Int, get_next_capture_number ["capture_3.jpg".data] = Except.ok n ∧ 1 ≤ n ∧
      ∀ f ∈ [("capture_3.jpg".data)], pyStartsWith "capture_".data f = true →
        pyIsDigit (pyComponent f) = true →
        ∀ v : Int, pyInt (pyComponent f) = Except.ok v → v < n :=
  spec_C10_amended ["capture_3.jpg".data] (by decide)

/-! ### Lemmas about the still-capture handler -/

/-- With an oracle that never raises, a run attempts every action. -/
theorem runActs_all_none (env : Nat → Option String) (h : ∀ k, env k = none) :
    ∀ (acts : List DevAction) (k : Nat),
    runActs env k acts = (Except.ok (), acts, k + acts.length) := by
  intro acts
  induction acts with
  | nil => intro k; simp [runActs]
  | cons a rest ih =>
    intro k
    simp only [runActs, h k, ih (k + 1), List.length_cons, Prod.mk.injEq, true_and]
    omega

/-- A run that succeeds attempted exactly the requested actions. -/
theorem runActs_ok_trace (env : Nat → Option String) :
    ∀ (acts : List DevAction) (k : Nat),
    (runActs env k acts).1 = Except.ok () → (runActs env k acts).2.1 = acts := by
  intro acts
  induction acts with
  | nil => intro k _; rfl
  | cons a rest ih =>
    intro k h
    cases he : env k with
    | some e => simp [runActs, he] at h
    | none =>
      simp only [runActs, he] at h ⊢
      rw [ih (k + 1) h]

/-- The recovery attempt is a nonempty prefix of stop, configure-video,
start, cut at the first raising call. -/
theorem recoverySeq_shape (info : List Char) (env : Nat → Option String) (k : Nat) :
    (recoverySeq info env k).1 = [DevAction.stop] ∨
    (recoverySeq info env k).1 =
      [DevAction.stop, DevAction.configure (video_config info)] ∨
    (recoverySeq info env k).1 =
      [DevAction.stop, DevAction.configure (video_config info), DevAction.start] := by
  unfold recoverySeq
  cases h0 : env k with
  | some e => left; simp [runActs, h0]
  | none =>
    cases h1 : env (k + 1) with
    | some e => right; left; simp [runActs, h0, h1]
    | none =>
      cases h2 : env (k + 1 + 1) with
      | some e => right; right; simp [runActs, h0, h1, h2]
      | none => right; right; simp [runActs, h0, h1, h2]

/-- A successful primary sequence came from a successful number scan and
attempted exactly the full action list. -/
theorem primarySeq_ok (info : List Char) (dirFiles : List (List Char))
    (env : Nat → Option String) (fn : List Char) (t : List DevAction) (k : Nat)
    (h : primarySeq info dirFiles env = (Except.ok fn, t, k)) :
    ∃ n : Int, get_next_capture_number dirFiles = Except.ok n ∧
      fn = captureFilename n ∧ t = primaryActions info n := by
  unfold primarySeq at h
  cases hgn : get_next_capture_number dirFiles with
  | error e =>
    rw [hgn] at h
    simp at h
  | ok n =>
    rw [hgn] at h
    simp only at h
    refine ⟨n, rfl, ?_, ?_⟩
    · have h1 := congrArg (fun p => p.1) h
      simp only at h1
      cases hr : (runActs env 0 (primaryActions info n)).1 with
      | ok u =>
        rw [hr] at h1
        simp [Except.map] at h1
        exact h1.symm
      | error e =>
        rw [hr] at h1
        simp [Except.map] at h1
    · have h2 := congrArg (fun p => p.2.1) h
      simp only at h2
      have h1 := congrArg (fun p => p.1) h
      simp only at h1
      cases hr : (runActs env 0 (primaryActions info n)).1 with
      | error e =>
        rw [hr] at h1
        simp [Except.map] at h1
      | ok u =>
        cases u
        rw [← h2]
        exact runActs_ok_trace env (primaryActions info n) 0 hr

/-- The primary action list ends with the restoration triple. -/
theorem primaryActions_suffix (info : List Char) (n : Int) :
    primaryActions info n =
      ([DevAction.stop, DevAction.configure (still_config info), DevAction.start]
        ++ (if is_v3 info then [DevAction.sleepMs 500] else [])
        ++ [DevAction.captureToFile (pyOsPathJoin "captures".data (captureFilename n))])
      ++ [DevAction.stop, DevAction.configure (video_config info), DevAction.start] := by
  simp [primaryActions]

/-- C2: every `/capture` execution ends its device trace with a restoration
attempt — stop, configure streaming, start, possibly cut short by a raising
call; whenever the primary sequence raises `e`, the response is exactly 500
with `success: false` and error `e`; and the response depends only on the
primary sequence, so a secondary exception during restoration is swallowed
and never changes the response. -/
theorem spec_C2 (info : List Char) (dirFiles : List (List Char))
    (env : Nat → Option String) :
    (∃ t rec, (captureHandler info dirFiles env).trace = t ++ rec ∧
      (rec = [DevAction.stop] ∨
       rec = [DevAction.stop, DevAction.configure (video_config info)] ∨
       rec = [DevAction.stop, DevAction.configure (video_config info), DevAction.start])) ∧
    (∀ e t k, primarySeq info dirFiles env = (Except.error e, t, k) →
      (captureHandler info dirFiles env).response = ⟨500, false, none, some e⟩) ∧
    (∀ env2, primarySeq info dirFiles env = primarySeq info dirFiles env2 →
      (captureHandler info dirFiles env).response =
        (captureHandler info dirFiles env2).response) := by
  refine ⟨?_, ?_, ?_⟩
  · rcases hps : primarySeq info dirFiles env with ⟨res, t, k⟩
    cases res with
    | error e =>
      refine ⟨t, (recoverySeq info env k).1, ?_, recoverySeq_shape info env k⟩
      simp [captureHandler, hps]
    | ok fn =>
      obtain ⟨n, _, _, ht⟩ := primarySeq_ok info dirFiles env fn t k hps
      refine ⟨[DevAction.stop, DevAction.configure (still_config info), DevAction.start]
          ++ (if is_v3 info then [DevAction.sleepMs 500] else [])
          ++ [DevAction.captureToFile (pyOsPathJoin "captures".data (captureFilename n))],
        [DevAction.stop, DevAction.configure (video_config info), DevAction.start],
        ?_, Or.inr (Or.inr rfl)⟩
      simp only [captureHandler, hps]
      rw [ht, primaryActions_suffix]
  · intro e t k h
    simp [captureHandler, h]
  · intro env2 h
    unfold captureHandler
    rw [← h]
    rcases primarySeq info dirFiles env with ⟨res, t, k⟩
    cases res <;> rfl

/-- Witness for C2: an oracle raising at the capture call; the response is
500 with the exception text and the restoration is attempted. -/
theorem spec_C2_witness :
    (captureHandler "hq".data [] (fun k => if k = 3 then some "boom" else none)).response =
      ⟨500, false, none, some "boom"⟩ :=
  (spec_C2 "hq".data [] (fun k => if k = 3 then some "boom" else none)).2.1 "boom"
    [DevAction.stop, DevAction.configure (still_config "hq".data), DevAction.start,
      DevAction.captureToFile (pyOsPathJoin "captures".data (captureFilename 1))]
    4 (by decide)

/-- C3: when every device call succeeds and the number scan yields `n`, the
`/capture` handler attempts exactly stop, configure still, start, the 500ms
autofocus wait when the V3 profile was selected, the capture into
`captures/capture_n.jpg`, stop, configure streaming, start — in this order —
and answers success with that filename; when the primary sequence raises,
it answers failure with an error description. -/
theorem spec_C3 (info : List Char) (dirFiles : List (List Char))
    (env : Nat → Option String) :
    ((∀ k, env k = none) → ∀ n : Int,
      get_next_capture_number dirFiles = Except.ok n →
      captureHandler info dirFiles env =
        ⟨⟨200, true, some (captureFilename n), none⟩,
          [DevAction.stop, DevAction.configure (still_config info), DevAction.start]
            ++ (if is_v3 info then [DevAction.sleepMs 500] else [])
            ++ [DevAction.captureToFile (pyOsPathJoin "captures".data (captureFilename n)),
                DevAction.stop, DevAction.configure (video_config info), DevAction.start]⟩) ∧
    (∀ e t k, primarySeq info dirFiles env = (Except.error e, t, k) →
      (captureHandler info dirFiles env).response.success = false ∧
      (captureHandler info dirFiles env).response.error = some e) := by
  constructor
  · intro hall n hgn
    have hps : primarySeq info dirFiles env =
        (Except.ok (captureFilename n), primaryActions info n,
          (primaryActions info n).length) := by
      unfold primarySeq
      rw [hgn]
      simp [runActs_all_none env hall (primaryActions info n) 0, Except.map]
    simp [captureHandler, hps, primaryActions]
  · intro e t k h
    simp [captureHandler, h]

/-- Witness for C3: a V3 device, a directory holding `capture_3.jpg`, and an
oracle that never raises; the handler performs the full claimed sequence,
sleep included, and answers with `capture_4.jpg`. -/
theorem spec_C3_witness :
    captureHandler "imx708".data ["capture_3.jpg".data] (fun _ => none) =
      ⟨⟨200, true, some (captureFilename 4), none⟩,
        [DevAction.stop, DevAction.configure (still_config "imx708".data), DevAction.start]
          ++ (if is_v3 "imx708".data then [DevAction.sleepMs 500] else [])
          ++ [DevAction.captureToFile
                (pyOsPathJoin "captures".data (captureFilename 4)),
              DevAction.stop, DevAction.configure (video_config "imx708".data),
              DevAction.start]⟩ :=
  (spec_C3 "imx708".data ["capture_3.jpg".data] (fun _ => none)).1
    (fun _ => rfl) 4 (by decide)

/-- C6: the `is_v3` and `type` fields are as described, but the `info` field
is not the device identification: the `def` at line 149 rebinds the module
name `camera_info` to the view function, so `str(camera_info)` inside the
handler renders the function object.  Evaluated at the identification
string `[]`: the returned `info` starts with the function rendering and
differs from the identification, while `is_v3` and `type` match the claim. -/
theorem spec_C6 :
    (camera_info_route "[]".data).info = "<function camera_info at".data ∧
    (camera_info_route "[]".data).info ≠ "[]".data ∧
    (camera_info_route "[]".data).v3Flag = false ∧
    (camera_info_route "[]".data).camType = "HQ or other camera".data := by
  refine ⟨rfl, ?_, rfl, rfl⟩
  decide

/-! ### Lemmas about path normalisation and the captures handler -/

/-- The pieces produced by a split never contain the separator. -/
theorem splitOnChar_not_mem (sep : Char) :
    ∀ (s : List Char), ∀ g ∈ splitOnChar sep s, sep ∉ g := by
  intro s
  induction s with
  | nil =>
    intro g hg
    simp only [splitOnChar, List.mem_singleton] at hg
    subst hg
    simp
  | cons c cs ih =>
    intro g hg
    simp only [splitOnChar] at hg
    by_cases hc : c = sep
    · rw [if_pos hc] at hg
      rcases List.mem_cons.mp hg with rfl | hg2
      · simp
      · exact ih g hg2
    · rw [if_neg hc] at hg
      cases hsp : splitOnChar sep cs with
      | nil =>
        rw [hsp] at hg
        simp only [List.mem_singleton] at hg
        subst hg
        intro hmem
        rcases List.mem_cons.mp hmem with he | hmem2
        · exact hc he.symm
        · cases hmem2
      | cons g0 gs =>
        rw [hsp] at hg
        rcases List.mem_cons.mp hg with rfl | hg2
        · intro hmem
          rcases List.mem_cons.mp hmem with he | hmem2
          · exact hc he.symm
          · exact ih g0 (by rw [hsp]; exact List.mem_cons_self g0 gs) hmem2
        · exact ih g (by rw [hsp]; exact List.mem_cons_of_mem g0 hg2)

/-- A separator-free string splits to the singleton of itself. -/
theorem splitOnChar_sepFree {sep : Char} :
    ∀ {x : List Char}, sep ∉ x → splitOnChar sep x = [x] := by
  intro x
  induction x with
  | nil => intro _; rfl
  | cons c cs ih =>
    intro h
    have hc : ¬ c = sep := fun he => h (by rw [← he]; exact List.mem_cons_self c cs)
    have hcs : sep ∉ cs := fun hm => h (List.mem_cons_of_mem c hm)
    simp only [splitOnChar, if_neg hc, ih hcs]

/-- Splitting after a separator-free piece and one separator peels off that
piece. -/
theorem splitOnChar_append_sep {sep : Char} :
    ∀ (x : List Char), sep ∉ x →
    ∀ t, splitOnChar sep (x ++ sep :: t) = x :: splitOnChar sep t := by
  intro x
  induction x with
  | nil =>
    intro _ t
    simp [splitOnChar]
  | cons c cs ih =>
    intro h t
    have hc : ¬ c = sep := fun he => h (by rw [← he]; exact List.mem_cons_self c cs)
    have hcs : sep ∉ cs := fun hm => h (List.mem_cons_of_mem c hm)
    simp only [List.cons_append, splitOnChar, if_neg hc, List.append_eq, ih hcs t]

/-- Splitting inverts joining for nonempty, separator-free components. -/
theorem splitOnChar_join {sep : Char} :
    ∀ (comps : List (List Char)), comps ≠ [] → (∀ c ∈ comps, sep ∉ c) →
    splitOnChar sep (joinWithChar sep comps) = comps := by
  intro comps
  induction comps with
  | nil => intro h _; exact absurd rfl h
  | cons x rest ih =>
    intro _ h
    cases rest with
    | nil =>
      simp only [joinWithChar]
      exact splitOnChar_sepFree (h x (List.mem_cons_self x []))
    | cons y rest2 =>
      simp only [joinWithChar]
      rw [splitOnChar_append_sep x (h x (List.mem_cons_self x (y :: rest2)))]
      rw [ih (by simp) (fun c hc => h c (List.mem_cons_of_mem x hc))]

/-- Unfolding: `normAux` on an exhausted component list. -/
theorem normAux_nil (roots : Bool) (acc : List (List Char)) :
    normAux roots acc [] = acc.reverse := rfl

/-- Unfolding: `normAux` skips empty and `.` components. -/
theorem normAux_skip {comp : List Char} (roots : Bool)
    (acc rest : List (List Char)) (h : comp = [] ∨ comp = ".".data) :
    normAux roots acc (comp :: rest) = normAux roots acc rest := by
  simp only [normAux]
  rw [if_pos h]

/-- Unfolding: `normAux` appends a component when the append condition
holds. -/
theorem normAux_push {comp : List Char} (roots : Bool)
    (acc rest : List (List Char)) (h1 : ¬(comp = [] ∨ comp = ".".data))
    (h2 : comp ≠ "..".data ∨ (roots = false ∧ acc = []) ∨
      (acc ≠ [] ∧ acc.headD [] = "..".data)) :
    normAux roots acc (comp :: rest) = normAux roots (comp :: acc) rest := by
  simp only [normAux]
  rw [if_neg h1, if_pos h2]

/-- Unfolding: otherwise `..` pops the most recent component. -/
theorem normAux_pop {comp : List Char} (roots : Bool)
    (acc rest : List (List Char)) (h1 : ¬(comp = [] ∨ comp = ".".data))
    (h2 : ¬(comp ≠ "..".data ∨ (roots = false ∧ acc = []) ∨
      (acc ≠ [] ∧ acc.headD [] = "..".data))) :
    normAux roots acc (comp :: rest) = normAux roots (acc.drop 1) rest := by
  simp only [normAux]
  rw [if_neg h1, if_neg h2]

/-- In a `normAux` result the `..` components form a leading run: the output
splits as an all-`..` part followed by a `..`-free part. -/
theorem normAux_run (roots : Bool) : ∀ (comps acc ns ds : List (List Char)),
    acc = ns ++ ds → "..".data ∉ ns → (∀ x ∈ ds, x = "..".data) →
    ∃ ds2 ns2, normAux roots acc comps = ds2 ++ ns2 ∧
      (∀ x ∈ ds2, x = "..".data) ∧ "..".data ∉ ns2 := by
  intro comps
  induction comps with
  | nil =>
    intro acc ns ds hacc hns hds
    subst hacc
    refine ⟨ds.reverse, ns.reverse, ?_, ?_, ?_⟩
    · rw [normAux_nil, List.reverse_append]
    · intro x hx
      exact hds x (List.mem_reverse.mp hx)
    · intro hx
      exact hns (List.mem_reverse.mp hx)
  | cons comp rest ih =>
    intro acc ns ds hacc hns hds
    by_cases h1 : comp = [] ∨ comp = ".".data
    · rw [normAux_skip roots acc rest h1]
      exact ih acc ns ds hacc hns hds
    · by_cases h2 : comp ≠ "..".data ∨ (roots = false ∧ acc = []) ∨
          (acc ≠ [] ∧ acc.headD [] = "..".data)
      · rw [normAux_push roots acc rest h1 h2]
        by_cases hdd : comp = "..".data
        · have hns0 : ns = [] := by
            rcases h2 with hne | ⟨_, hae⟩ | ⟨_, hhead⟩
            · exact absurd hdd hne
            · have hnsds : ns ++ ds = [] := by rw [← hacc]; exact hae
              exact (List.append_eq_nil.mp hnsds).1
            · cases ns with
              | nil => rfl
              | cons n ns3 =>
                exfalso
                have hn : n = "..".data := by
                  rw [hacc] at hhead
                  simpa using hhead
                exact hns (List.mem_cons.mpr (Or.inl hn.symm))
          subst hns0
          have haccds : acc = ds := by simpa using hacc
          refine ih (comp :: acc) [] (comp :: ds) (by simp [haccds]) (by simp) ?_
          intro x hx
          rcases List.mem_cons.mp hx with rfl | hx2
          · exact hdd
          · exact hds x hx2
        · refine ih (comp :: acc) (comp :: ns) ds (by rw [hacc]; rfl) ?_ hds
          intro hx
          rcases List.mem_cons.mp hx with he | hx2
          · exact hdd he.symm
          · exact hns hx2
      · rw [normAux_pop roots acc rest h1 h2]
        cases ns with
        | nil =>
          refine ih (acc.drop 1) [] (ds.drop 1) ?_ (by simp) ?_
          · rw [hacc]
            simp
          · intro x hx
            exact hds x (List.mem_of_mem_drop hx)
        | cons n ns3 =>
          refine ih (acc.drop 1) ns3 ds ?_
            (fun hx => hns (List.mem_cons_of_mem n hx)) hds
          rw [hacc]
          rfl

/-- Every component of a `normAux` result either was in the accumulator or
is a kept (nonempty, non-`.`) input component. -/
theorem normAux_mem (roots : Bool) (Q : List Char → Prop) :
    ∀ (comps acc : List (List Char)),
    (∀ x ∈ acc, Q x) →
    (∀ x ∈ comps, ¬(x = [] ∨ x = ".".data) → Q x) →
    ∀ x ∈ normAux roots acc comps, Q x := by
  intro comps
  induction comps with
  | nil =>
    intro acc hacc _ x hx
    rw [normAux_nil] at hx
    exact hacc x (List.mem_reverse.mp hx)
  | cons comp rest ih =>
    intro acc hacc hcomps x hx
    have hrest : ∀ y ∈ rest, ¬(y = [] ∨ y = ".".data) → Q y :=
      fun y hy => hcomps y (List.mem_cons_of_mem comp hy)
    by_cases h1 : comp = [] ∨ comp = ".".data
    · rw [normAux_skip roots acc rest h1] at hx
      exact ih acc hacc hrest x hx
    · by_cases h2 : comp ≠ "..".data ∨ (roots = false ∧ acc = []) ∨
          (acc ≠ [] ∧ acc.headD [] = "..".data)
      · rw [normAux_push roots acc rest h1 h2] at hx
        refine ih (comp :: acc) ?_ hrest x hx
        intro y hy
        rcases List.mem_cons.mp hy with he | hy2
        · subst he
          exact hcomps y (List.mem_cons_self y rest) h1
        · exact hacc y hy2
      · rw [normAux_pop roots acc rest h1 h2] at hx
        exact ih (acc.drop 1) (fun y hy => hacc y (List.mem_of_mem_drop hy)) hrest x hx

/-- Assembling with no leading slash and no components yields `.`; otherwise
the join of the components. -/
theorem normpathAssemble_zero (comps : List (List Char)) :
    normpathAssemble 0 comps =
      if joinWithChar '/' comps = [] then ".".data else joinWithChar '/' comps := rfl

/-- Assembling with a positive slash count yields a path beginning with a
slash. -/
theorem normpathAssemble_pos (k : Nat) (comps : List (List Char)) :
    ∃ t, normpathAssemble (k + 1) comps = '/' :: t := by
  refine ⟨List.replicate k '/' ++ joinWithChar '/' comps, ?_⟩
  simp [normpathAssemble, List.replicate_succ]

/-- A path beginning with a slash starts with `/`. -/
theorem pyStartsWith_slash (t : List Char) :
    pyStartsWith "/".data ('/' :: t) = true := by
  show pyStartsWith ['/'] ('/' :: t) = true
  simp [pyStartsWith]

/-- A path beginning with `../` starts with `../`. -/
theorem pyStartsWith_dotdotslash (t : List Char) :
    pyStartsWith "../".data ('.' :: '.' :: '/' :: t) = true := by
  show pyStartsWith ['.', '.', '/'] ('.' :: '.' :: '/' :: t) = true
  simp [pyStartsWith]

/-- A normalised nonempty path that is not absolute, not `..`, and does not
begin with `../` has no `..` component at all. -/
theorem posixNormpath_no_dotdot (p : List Char) (hp : ¬ p = [])
    (habs : ¬ pyStartsWith "/".data (posixNormpath p) = true)
    (hne : posixNormpath p ≠ "..".data)
    (hpre : ¬ pyStartsWith "../".data (posixNormpath p) = true) :
    "..".data ∉ splitOnChar '/' (posixNormpath p) := by
  have hdef : posixNormpath p = normpathAssemble (leadSlashes p)
      (normAux (decide (leadSlashes p ≠ 0)) [] (splitOnChar '/' p)) := by
    unfold posixNormpath
    rw [if_neg hp]
  cases hsl : leadSlashes p with
  | succ k =>
    exfalso
    rw [hsl] at hdef
    obtain ⟨t, ht⟩ := normpathAssemble_pos k
      (normAux (decide (k + 1 ≠ 0)) [] (splitOnChar '/' p))
    rw [ht] at hdef
    apply habs
    rw [hdef]
    exact pyStartsWith_slash t
  | zero =>
    rw [hsl] at hdef
    set comps := normAux (decide ((0:Nat) ≠ 0)) [] (splitOnChar '/' p) with hcompsdef
    rw [normpathAssemble_zero] at hdef
    cases hcomps : comps with
    | nil =>
      rw [hcomps] at hdef
      simp at hdef
      rw [hdef]
      decide
    | cons c rest =>
      have hQ : ∀ x ∈ comps, x ≠ [] ∧ '/' ∉ x := by
        intro x hx
        refine normAux_mem _ (fun y => y ≠ [] ∧ '/' ∉ y)
          (splitOnChar '/' p) [] (by simp) ?_ x (by rw [← hcompsdef]; exact hx)
        intro y hy hcond
        exact ⟨fun he => hcond (Or.inl he), splitOnChar_not_mem '/' p y hy⟩
      have hcne : c ≠ [] := (hQ c (by rw [hcomps]; exact List.mem_cons_self c rest)).1
      have hjoin_ne : joinWithChar '/' comps ≠ [] := by
        rw [hcomps]
        cases rest with
        | nil => simpa [joinWithChar] using hcne
        | cons y rest2 =>
          simp only [joinWithChar]
          intro he
          exact hcne (List.append_eq_nil.mp he).1
      rw [if_neg hjoin_ne] at hdef
      have hcdd : c ≠ "..".data := by
        intro hc
        subst hc
        cases hrest : rest with
        | nil =>
          apply hne
          rw [hdef, hcomps, hrest]
          rfl
        | cons y rest2 =>
          apply hpre
          rw [hdef, hcomps, hrest]
          exact pyStartsWith_dotdotslash (joinWithChar '/' (y :: rest2))
      obtain ⟨ds2, ns2, hsplit2, hds2, hns2⟩ :=
        normAux_run (decide ((0:Nat) ≠ 0)) (splitOnChar '/' p) [] [] [] rfl
          (by simp) (by simp)
      have hcomps_eq : comps = ds2 ++ ns2 := by
        rw [hcompsdef]
        exact hsplit2
      have hds2nil : ds2 = [] := by
        cases ds2 with
        | nil => rfl
        | cons d ds3 =>
          exfalso
          have hd : d = "..".data := hds2 d (List.mem_cons_self d ds3)
          have hcd : c = d := by
            have he := hcomps_eq
            rw [hcomps] at he
            injection he with h1 _
          exact hcdd (hcd.trans hd)
      have hnotin : "..".data ∉ comps := by
        rw [hcomps_eq, hds2nil, List.nil_append]
        exact hns2
      rw [hdef]
      rw [splitOnChar_join comps (by rw [hcomps]; simp) (fun x hx => (hQ x hx).2)]
      exact hnotin

/-- Every path `safe_join` accepts under `captures` lies inside the capture
directory: it is `captures/` followed by a remainder free of `..`
components. -/
theorem safe_join_inside (filename q : List Char)
    (h : safe_join "captures".data filename = some q) :
    ∃ r, q = "captures/".data ++ r ∧ "..".data ∉ splitOnChar '/' r := by
  by_cases hfe : filename = []
  · subst hfe
    have hc : safe_join "captures".data [] = some ("captures/".data) := by decide
    rw [hc] at h
    injection h with hq
    refine ⟨[], ?_, by decide⟩
    rw [← hq]
    simp
  · simp only [safe_join] at h
    rw [if_neg hfe] at h
    rw [if_neg (show ¬("captures".data = []) from by decide)] at h
    by_cases hcond : pyStartsWith "/".data (posixNormpath filename) = true ∨
        posixNormpath filename = "..".data ∨
        pyStartsWith "../".data (posixNormpath filename) = true
    · rw [if_pos hcond] at h
      cases h
    · rw [if_neg hcond] at h
      injection h with hq
      push_neg at hcond
      obtain ⟨h1, h2, h3⟩ := hcond
      have hjoin : pyOsPathJoin "captures".data (posixNormpath filename) =
          "captures/".data ++ posixNormpath filename := by
        unfold pyOsPathJoin
        rw [if_neg h1, if_neg (show ¬("captures".data = [] ∨
          ("captures".data).getLast? = some '/') from by decide)]
        rfl
      refine ⟨posixNormpath filename, ?_, ?_⟩
      · rw [← hq, hjoin]
      · exact posixNormpath_no_dotdot filename hfe h1 h2 h3

/-- C9: the `/captures/<filename>` handler rejects the path-traversal
request `../../etc/passwd`, and every file it does serve lies at a path of
the form `captures/` followed by a `..`-free remainder — inside the capture
directory. -/
theorem spec_C9 :
    serve_capture "../../etc/passwd".data = ServeResult.notFound ∧
    ∀ filename p, serve_capture filename = ServeResult.fileAt p →
      ∃ r, p = "captures/".data ++ r ∧ "..".data ∉ splitOnChar '/' r := by
  refine ⟨by decide, ?_⟩
  intro filename p h
  unfold serve_capture at h
  cases hsj : safe_join "captures".data filename with
  | none =>
    rw [hsj] at h
    cases h
  | some q =>
    rw [hsj] at h
    injection h with hq
    exact hq ▸ safe_join_inside filename q hsj

/-- Witness for C9: the ordinary request `photo.jpg` is served from inside
the capture directory. -/
theorem spec_C9_witness :
    ∃ r, "captures/photo.jpg".data = "captures/".data ++ r ∧
      "..".data ∉ splitOnChar '/' r :=
  spec_C9.2 "photo.jpg".data "captures/photo.jpg".data (by decide)
